import Mathlib

/-!
Verification of the join-result materializer in
`src/back-end/app/api/utils.py`: the grouping loop of
`get_servers_on_cluster` and the user-building function
`process_user_data`.  Rows are shallowly embedded as column/value
mappings; the database fetch itself (an excluded I/O collaborator) is
not modelled, only the pure transformation applied to the fetched row
sequence.
-/

namespace MediaTimeline

/-- A scalar cell value of a row: SQL NULL (Python `None`), a string, or an
integer.  Timestamps are represented as strings. -/
inductive Value : Type
  | null : Value
  | str : String → Value
  | int : Int → Value
deriving DecidableEq, Repr

/-- Python truthiness of a cell value, as tested by `if row["client_id"]:`
in `process_user_data`: `None`, the empty string and `0` are falsy. -/
def Value.truthy : Value → Bool
  | .null => false
  | .str s => decide (s ≠ "")
  | .int n => decide (n ≠ 0)

/-- A row of the server/client left-join result, as handed to the grouping
loop of `get_servers_on_cluster`: a dict-like record, embedded as an
association list from column name to value (keys in dict order). -/
structure SRow : Type where
  cols : List (String × Value)
deriving DecidableEq, Repr

/-- Dictionary lookup `row[k]`; `none` models a `KeyError`. -/
def SRow.lookup (r : SRow) (k : String) : Option Value :=
  (r.cols.find? (fun kv => decide (kv.1 = k))).map (fun kv => kv.2)

/-- A server record as built by `get_servers_on_cluster`: the four
server-scoped columns plus the accumulated client list.  Each client is
the dict produced by the comprehension
`{key: row[key] for key in row.keys() if key.startswith("client_")}`,
kept as an association list with full (unstripped) key names. -/
structure Server : Type where
  id : Value
  created_at : Value
  updated_at : Value
  cluster_name : Value
  clients : List (List (String × Value))
deriving DecidableEq, Repr

/-- The client dict extracted from a row: every column whose name starts
with `client_`, in row key order (the dict comprehension in the source). -/
def clientProj (r : SRow) : List (String × Value) :=
  r.cols.filter (fun kv => kv.1.startsWith "client_")

/-- `servers[server_id]["clients"].append(client)`: append a client to the
(unique) server whose id is `sid`, leaving the others unchanged. -/
def addClient (servers : List Server) (sid : Value)
    (c : List (String × Value)) : List Server :=
  servers.map (fun s =>
    if s.id = sid then { s with clients := s.clients ++ [c] } else s)

/-- One iteration of the grouping loop of `get_servers_on_cluster`:
read `row["id"]`; if that id is new, create the server entry from the
row's server-scoped columns with an empty client list; then append the
row's `client_`-prefixed columns as a client dict, unconditionally.
`none` models a `KeyError` on a missing column. -/
def step (servers : List Server) (row : SRow) : Option (List Server) := do
  let sid ← row.lookup "id"
  let servers1 ←
    if servers.any (fun s => decide (s.id = sid)) then
      some servers
    else do
      let ca ← row.lookup "created_at"
      let ua ← row.lookup "updated_at"
      let cn ← row.lookup "cluster_name"
      some (servers ++ [{ id := sid, created_at := ca, updated_at := ua,
                          cluster_name := cn, clients := [] }])
  some (addClient servers1 sid (clientProj row))

/-- The grouping performed by `get_servers_on_cluster` on the fetched
rows (`servers = {}` … `for row in result:` … `list(servers.values())`).
The Python dict is insertion ordered, so it is embedded as a list of
server records in insertion order.  `none` models a `KeyError`. -/
def get_servers_on_cluster (rows : List SRow) : Option (List Server) :=
  rows.foldlM step []

/-- A row of the single-user left-join result consumed by
`process_user_data`.  The function only ever reads these nine fixed
columns, so a well-formed row is embedded as a record with those
columns. -/
structure URow : Type where
  id : Value
  name : Value
  email : Value
  emailVerified : Value
  image : Value
  client_id : Value
  user_id : Value
  created_at : Value
  updated_at : Value
deriving DecidableEq, Repr

/-- A user-scoped client record as built by `process_user_data`. -/
structure UClient : Type where
  id : Value
  name : Value
  user_id : Value
  created_at : Value
  updated_at : Value
deriving DecidableEq, Repr

/-- A user record as built by `process_user_data`. -/
structure User : Type where
  id : Value
  name : Value
  email : Value
  emailVerified : Value
  image : Value
  clients : List UClient
deriving DecidableEq, Repr

/-- The client dict literal appended by `process_user_data`: note that its
`id` field is taken from the row's `client_id` column. -/
def mkUClient (row : URow) : UClient :=
  { id := row.client_id, name := row.name, user_id := row.user_id,
    created_at := row.created_at, updated_at := row.updated_at }

/-- The client-accumulation loop of `process_user_data`
(`for row in user_data: if row["client_id"]: … append`). -/
def clientsLoop (user_data : List URow) : List UClient :=
  user_data.foldl
    (fun acc row =>
      if row.client_id.truthy then acc ++ [mkUClient row] else acc) []

/-- `process_user_data`: `None` for an empty row sequence (Python
`if not user_data: return None`), otherwise the user dict whose identity
fields come from `user_data[0]` and whose client list is accumulated by
the loop over all rows. -/
def process_user_data (user_data : List URow) : Option User :=
  match user_data with
  | [] => none
  | first :: _ =>
    some { id := first.id, name := first.name, email := first.email,
           emailVerified := first.emailVerified, image := first.image,
           clients := clientsLoop user_data }

/-! ### Specification-side helpers used to characterize the grouping -/

/-- The distinct elements of a list in first-seen order. -/
def firstSeen {α : Type} [DecidableEq α] : List α → List α
  | [] => []
  | a :: l => a :: (firstSeen l).filter (fun b => decide (b ≠ a))

/-- The position of the first occurrence of `v` (length of the list when
`v` does not occur). -/
def firstIdx {α : Type} [DecidableEq α] : List α → α → Nat
  | [], _ => 0
  | x :: l, v => if x = v then 0 else firstIdx l v + 1

/-- The server id of a row, with a default for the (error) case of a
missing `id` column. -/
def rowIdD (r : SRow) : Value :=
  (r.lookup "id").getD Value.null

/-- Lookup with a null default, used only on rows known to carry the
column. -/
def lookD (r : SRow) (k : String) : Value :=
  (r.lookup k).getD Value.null

/-- A row is well formed for the grouping loop when it carries the four
server-scoped columns the loop reads. -/
def WFRow (r : SRow) : Bool :=
  (r.lookup "id").isSome && (r.lookup "created_at").isSome &&
    (r.lookup "updated_at").isSome && (r.lookup "cluster_name").isSome

/-- The server-scoped fields of the first row carrying id `sid`. -/
def firstRowFields (rows : List SRow) (sid : Value) : Server :=
  match rows.find? (fun r => decide (rowIdD r = sid)) with
  | some r => { id := sid, created_at := lookD r "created_at",
                updated_at := lookD r "updated_at",
                cluster_name := lookD r "cluster_name", clients := [] }
  | none => { id := sid, created_at := Value.null, updated_at := Value.null,
              cluster_name := Value.null, clients := [] }

/-- The client dicts of all rows carrying id `sid`, in row order. -/
def clientsFor (rows : List SRow) (sid : Value) :
    List (List (String × Value)) :=
  (rows.filter (fun r => decide (rowIdD r = sid))).map clientProj

/-- Reference description of the grouping output: one server per distinct
id in first-seen order, fields from the first row with that id, clients
accumulated over all rows with that id. -/
def outSpec (rows : List SRow) : List Server :=
  (firstSeen (rows.map rowIdD)).map (fun sid =>
    { firstRowFields rows sid with clients := clientsFor rows sid })

/-! ### Lemmas about `firstSeen` and `firstIdx` -/

theorem mem_firstSeen {α : Type} [DecidableEq α] {l : List α} {b : α} :
    b ∈ firstSeen l ↔ b ∈ l := by
  induction l with
  | nil => simp [firstSeen]
  | cons a l ih =>
    by_cases hba : b = a
    · subst hba; simp [firstSeen]
    · simp [firstSeen, List.mem_filter, hba, ih]

theorem nodup_firstSeen {α : Type} [DecidableEq α] (l : List α) :
    (firstSeen l).Nodup := by
  induction l with
  | nil => simp [firstSeen]
  | cons a l ih =>
    refine List.Nodup.cons ?_ (ih.sublist (List.filter_sublist _))
    intro hmem
    rcases List.mem_filter.mp hmem with ⟨-, hne⟩
    simp at hne

theorem firstSeen_append_singleton {α : Type} [DecidableEq α]
    (l : List α) (a : α) :
    firstSeen (l ++ [a]) =
      if a ∈ l then firstSeen l else firstSeen l ++ [a] := by
  induction l with
  | nil => simp [firstSeen]
  | cons x l ih =>
    have hstep : firstSeen ((x :: l) ++ [a]) =
        x :: (firstSeen (l ++ [a])).filter (fun b => decide (b ≠ x)) := rfl
    rw [hstep, ih]
    by_cases hal : a ∈ l
    · simp [hal, firstSeen]
    · by_cases hax : a = x
      · subst hax
        have hmem : a ∈ a :: l := List.mem_cons_self a l
        simp [hal, hmem, firstSeen, List.filter_append]
      · have hnmem : a ∉ x :: l := by
          intro h
          rcases List.mem_cons.mp h with h | h
          · exact hax h
          · exact hal h
        simp [hal, hnmem, firstSeen, List.filter_append, hax]

theorem firstIdx_head {α : Type} [DecidableEq α] (l : List α) (a : α) :
    firstIdx (a :: l) a = 0 := by
  simp [firstIdx]

theorem firstIdx_cons_ne {α : Type} [DecidableEq α] (l : List α)
    {a v : α} (h : a ≠ v) : firstIdx (a :: l) v = firstIdx l v + 1 := by
  simp [firstIdx, h]

theorem firstSeen_pairwise_firstIdx {α : Type} [DecidableEq α]
    (l : List α) :
    (firstSeen l).Pairwise (fun a b => firstIdx l a < firstIdx l b) := by
  induction l with
  | nil => simp [firstSeen]
  | cons x l ih =>
    refine List.Pairwise.cons ?_ ?_
    · intro b hb
      rcases List.mem_filter.mp hb with ⟨-, hne⟩
      have hne' : b ≠ x := by simpa using hne
      rw [firstIdx_head, firstIdx_cons_ne l (fun h => hne' h.symm)]
      exact Nat.succ_pos _
    · have hsub : ((firstSeen l).filter
          (fun b => decide (b ≠ x))).Sublist (firstSeen l) :=
        List.filter_sublist _
      refine List.Pairwise.imp_of_mem ?_ (List.Pairwise.sublist hsub ih)
      intro a b ha hb hab
      have hax : a ≠ x := by
        rcases List.mem_filter.mp ha with ⟨-, h⟩; simpa using h
      have hbx : b ≠ x := by
        rcases List.mem_filter.mp hb with ⟨-, h⟩; simpa using h
      rw [firstIdx_cons_ne l (fun h => hax h.symm),
        firstIdx_cons_ne l (fun h => hbx h.symm)]
      exact Nat.succ_lt_succ hab

/-! ### Characterization of the grouping loop -/

theorem outSpec_elem_id (rows : List SRow) (sid : Value) :
    ({ firstRowFields rows sid with
        clients := clientsFor rows sid } : Server).id = sid := by
  unfold firstRowFields
  cases rows.find? (fun r => decide (rowIdD r = sid)) <;> rfl

theorem outSpec_ids (rows : List SRow) :
    (outSpec rows).map Server.id = firstSeen (rows.map rowIdD) := by
  unfold outSpec
  rw [List.map_map]
  have h : ∀ sid ∈ firstSeen (rows.map rowIdD),
      (Server.id ∘ fun sid => ({ firstRowFields rows sid with
        clients := clientsFor rows sid } : Server)) sid = id sid :=
    fun sid _ => outSpec_elem_id rows sid
  rw [List.map_congr_left h, List.map_id]

theorem find?_rowId_eq_none_of_not_mem {rows : List SRow} {sid : Value}
    (h : sid ∉ rows.map rowIdD) :
    rows.find? (fun r => decide (rowIdD r = sid)) = none := by
  rw [List.find?_eq_none]
  intro x hx
  simp only [decide_eq_true_eq]
  intro he
  exact h (he ▸ List.mem_map_of_mem rowIdD hx)

theorem find?_rowId_isSome_of_mem {rows : List SRow} {sid : Value}
    (h : sid ∈ rows.map rowIdD) :
    (rows.find? (fun r => decide (rowIdD r = sid))).isSome := by
  rw [List.find?_isSome]
  rcases List.mem_map.mp h with ⟨t, ht, hts⟩
  exact ⟨t, ht, by simpa using hts⟩

theorem firstRowFields_append_of_mem {rows : List SRow} {sid : Value}
    (r : SRow) (h : sid ∈ rows.map rowIdD) :
    firstRowFields (rows ++ [r]) sid = firstRowFields rows sid := by
  unfold firstRowFields
  rw [List.find?_append]
  obtain ⟨x, hx⟩ := Option.isSome_iff_exists.mp (find?_rowId_isSome_of_mem h)
  rw [hx]
  rfl

theorem firstRowFields_append_of_not_mem {rows : List SRow} {sid : Value}
    (r : SRow) (h : sid ∉ rows.map rowIdD) :
    firstRowFields (rows ++ [r]) sid = firstRowFields [r] sid := by
  unfold firstRowFields
  rw [List.find?_append, find?_rowId_eq_none_of_not_mem h]
  rfl

theorem clientsFor_append (rows : List SRow) (r : SRow) (sid : Value) :
    clientsFor (rows ++ [r]) sid =
      clientsFor rows sid ++
        (if rowIdD r = sid then [clientProj r] else []) := by
  unfold clientsFor
  rw [List.filter_append, List.map_append]
  by_cases h : rowIdD r = sid <;> simp [List.filter_cons, h]

theorem clientsFor_eq_nil_of_not_mem {rows : List SRow} {sid : Value}
    (h : sid ∉ rows.map rowIdD) : clientsFor rows sid = [] := by
  unfold clientsFor
  have hfil : rows.filter (fun r => decide (rowIdD r = sid)) = [] := by
    rw [List.filter_eq_nil_iff]
    intro a ha
    simp only [decide_eq_true_eq]
    intro he
    exact h (he ▸ List.mem_map_of_mem rowIdD ha)
  rw [hfil]
  rfl

theorem firstRowFields_id (rows : List SRow) (sid : Value) :
    (firstRowFields rows sid).id = sid := by
  unfold firstRowFields
  cases rows.find? (fun r => decide (rowIdD r = sid)) <;> rfl

theorem outSpec_elem_append_of_ne {rows : List SRow} {sid' : Value}
    (r : SRow) (hmem : sid' ∈ rows.map rowIdD) (hne : rowIdD r ≠ sid') :
    ({ firstRowFields (rows ++ [r]) sid' with
        clients := clientsFor (rows ++ [r]) sid' } : Server) =
      { firstRowFields rows sid' with clients := clientsFor rows sid' } := by
  rw [firstRowFields_append_of_mem r hmem, clientsFor_append, if_neg hne,
    List.append_nil]

theorem step_outSpec (rows : List SRow) (r : SRow) (hr : WFRow r = true) :
    step (outSpec rows) r = some (outSpec (rows ++ [r])) := by
  simp only [WFRow, Bool.and_eq_true, Option.isSome_iff_exists] at hr
  obtain ⟨⟨⟨⟨sid, hsid⟩, ⟨ca, hca⟩⟩, ⟨ua, hua⟩⟩, ⟨cn, hcn⟩⟩ := hr
  have hrid : rowIdD r = sid := by simp [rowIdD, hsid]
  have hmap : (rows ++ [r]).map rowIdD = rows.map rowIdD ++ [sid] := by
    simp [hrid]
  by_cases hmem : sid ∈ rows.map rowIdD
  · have hany : (outSpec rows).any (fun s => decide (s.id = sid)) = true := by
      rw [List.any_eq_true]
      have hmem' : sid ∈ (outSpec rows).map Server.id := by
        rw [outSpec_ids]
        exact mem_firstSeen.mpr hmem
      rcases List.mem_map.mp hmem' with ⟨s, hs, hsid'⟩
      exact ⟨s, hs, by simp [hsid']⟩
    simp only [step, hsid, Option.bind_eq_bind, Option.some_bind, hany,
      if_true]
    congr 1
    unfold outSpec addClient
    rw [hmap, firstSeen_append_singleton, if_pos hmem, List.map_map]
    refine List.map_congr_left ?_
    intro sid' hsid'
    simp only [Function.comp_apply]
    by_cases hss : sid' = sid
    · subst hss
      rw [firstRowFields_append_of_mem r hmem, clientsFor_append,
        if_pos hrid, firstRowFields_id, if_pos rfl]
    · have hne : rowIdD r ≠ sid' := fun hcontra =>
        hss (by rw [← hcontra, hrid])
      rw [outSpec_elem_append_of_ne r (mem_firstSeen.mp hsid') hne,
        firstRowFields_id, if_neg hss]
      simp [firstRowFields_id]
  · have hany : (outSpec rows).any (fun s => decide (s.id = sid)) = false := by
      rw [List.any_eq_false]
      intro s hs
      simp only [decide_eq_true_eq]
      intro he
      have : sid ∈ (outSpec rows).map Server.id :=
        he ▸ List.mem_map_of_mem Server.id hs
      rw [outSpec_ids, mem_firstSeen] at this
      exact hmem this
    simp only [step, hsid, Option.bind_eq_bind, Option.some_bind, hany,
      Bool.false_eq_true, if_false, hca, hua, hcn]
    congr 1
    unfold addClient
    rw [List.map_append]
    conv_rhs => rw [outSpec]
    rw [hmap, firstSeen_append_singleton, if_neg hmem, List.map_append]
    congr 1
    · unfold outSpec
      rw [List.map_map]
      refine List.map_congr_left ?_
      intro sid' hsid'
      have hss : sid' ≠ sid := by
        intro he
        exact hmem (he ▸ mem_firstSeen.mp hsid')
      have hne : rowIdD r ≠ sid' := fun hcontra =>
        hss (by rw [← hcontra, hrid])
      simp only [Function.comp_apply]
      rw [outSpec_elem_append_of_ne r (mem_firstSeen.mp hsid') hne,
        firstRowFields_id, if_neg hss]
      simp [firstRowFields_id]
    · simp only [List.map_cons, List.map_nil, if_pos rfl]
      rw [firstRowFields_append_of_not_mem r hmem]
      unfold firstRowFields
      have hfind : List.find? (fun t => decide (rowIdD t = sid)) [r] =
          some r := by
        simp [List.find?_cons, hrid]
      rw [hfind, clientsFor_append, if_pos hrid,
        clientsFor_eq_nil_of_not_mem hmem]
      simp [lookD, hca, hua, hcn]

/-- The grouping loop of `get_servers_on_cluster` computes `outSpec`:
one server per distinct id in first-seen order, fields from the first
row with that id, clients accumulated in row order. -/
theorem get_servers_eq_outSpec (rows : List SRow)
    (h : ∀ r ∈ rows, WFRow r) :
    get_servers_on_cluster rows = some (outSpec rows) := by
  induction rows using List.reverseRecOn with
  | nil => rfl
  | append_singleton l r ih =>
    have hl : ∀ x ∈ l, WFRow x := fun x hx => h x (List.mem_append_left _ hx)
    have hr : WFRow r = true :=
      h r (List.mem_append_right _ (List.mem_cons_self r []))
    unfold get_servers_on_cluster at ih ⊢
    rw [List.foldlM_append, ih hl]
    simp only [Option.bind_eq_bind, Option.some_bind, List.foldlM_cons,
      List.foldlM_nil]
    rw [step_outSpec l r hr]
    rfl

/-! ### Characterization of `process_user_data` -/

theorem clientsLoop_from (l : List URow) :
    ∀ acc, l.foldl
        (fun acc row =>
          if row.client_id.truthy then acc ++ [mkUClient row] else acc) acc =
      acc ++ (l.filter (fun r => r.client_id.truthy)).map mkUClient := by
  induction l with
  | nil => intro acc; simp
  | cons r l ih =>
    intro acc
    simp only [List.foldl_cons, List.filter_cons]
    by_cases h : r.client_id.truthy
    · rw [if_pos h, ih, if_pos h]
      simp
    · rw [if_neg h, ih, if_neg h]

theorem clientsLoop_eq (l : List URow) :
    clientsLoop l = (l.filter (fun r => r.client_id.truthy)).map mkUClient := by
  unfold clientsLoop
  rw [clientsLoop_from]
  rfl

theorem process_user_data_clients (l : List URow) (u : User)
    (hu : process_user_data l = some u) :
    u.clients = (l.filter (fun r => r.client_id.truthy)).map mkUClient := by
  cases l with
  | nil => exact absurd hu (by simp [process_user_data])
  | cons f rest =>
    simp only [process_user_data, Option.some.injEq] at hu
    rw [← hu]
    exact clientsLoop_eq (f :: rest)

/-! ### Concrete sample data used by the witnesses -/

/-- Sample join result: two rows for server `s1`, one left-join row for
server `s2` with all-null client columns. -/
def sampleRows : List SRow :=
  [⟨[("id", Value.str "s1"), ("created_at", Value.str "t1"),
     ("updated_at", Value.str "t2"), ("cluster_name", Value.str "c"),
     ("client_id", Value.str "k1"), ("client_name", Value.str "n1")]⟩,
   ⟨[("id", Value.str "s1"), ("created_at", Value.str "t1"),
     ("updated_at", Value.str "t2"), ("cluster_name", Value.str "c"),
     ("client_id", Value.str "k2"), ("client_name", Value.str "n2")]⟩,
   ⟨[("id", Value.str "s2"), ("created_at", Value.str "t3"),
     ("updated_at", Value.str "t4"), ("cluster_name", Value.str "c"),
     ("client_id", Value.null), ("client_name", Value.null)]⟩]

/-! ### Claims about the server grouping -/

/-- C1: for every input row sequence, the grouping of
`get_servers_on_cluster` produces exactly one `Server` record per
distinct server `id` value: no id appears twice among the output
servers, the output ids are exactly the input ids, and the number of
output servers equals the number of distinct input id values. -/
theorem claim_C1 (rows : List SRow) (h : ∀ r ∈ rows, WFRow r) :
    ∃ out, get_servers_on_cluster rows = some out ∧
      (out.map Server.id).Nodup ∧
      (∀ v, v ∈ out.map Server.id ↔ v ∈ rows.map rowIdD) ∧
      out.length = (rows.map rowIdD).toFinset.card := by
  refine ⟨outSpec rows, get_servers_eq_outSpec rows h, ?_, ?_, ?_⟩
  · rw [outSpec_ids]
    exact nodup_firstSeen _
  · intro v
    rw [outSpec_ids]
    exact mem_firstSeen
  · have hlen : (outSpec rows).length =
        (firstSeen (rows.map rowIdD)).length := by
      have hcg := congrArg List.length (outSpec_ids rows)
      simpa using hcg
    rw [hlen, ← List.toFinset_card_of_nodup (nodup_firstSeen _)]
    congr 1
    ext a
    simp [mem_firstSeen]

/-- Witness for C1 at `sampleRows`. -/
theorem claim_C1_witness :
    (∀ r ∈ sampleRows, WFRow r) ∧
      ∃ out, get_servers_on_cluster sampleRows = some out ∧
        (out.map Server.id).Nodup ∧
        (∀ v, v ∈ out.map Server.id ↔ v ∈ sampleRows.map rowIdD) ∧
        out.length = (sampleRows.map rowIdD).toFinset.card :=
  ⟨by decide, claim_C1 sampleRows (by decide)⟩

/-- C2: each output server's client list has exactly one entry per input
row carrying that server's id — a client is appended for every row,
unconditionally, with no null-check on any client column. -/
theorem claim_C2 (rows : List SRow) (h : ∀ r ∈ rows, WFRow r) :
    ∃ out, get_servers_on_cluster rows = some out ∧
      ∀ s ∈ out, s.clients.length =
        (rows.filter (fun r => decide (rowIdD r = s.id))).length := by
  refine ⟨outSpec rows, get_servers_eq_outSpec rows h, ?_⟩
  intro s hs
  unfold outSpec at hs
  rcases List.mem_map.mp hs with ⟨sid, hsid, rfl⟩
  show (clientsFor rows sid).length = _
  unfold clientsFor
  rw [List.length_map, firstRowFields_id]

/-- Witness for C2 at `sampleRows` (whose last row has all-null client
columns yet still counts as one client of server `s2`). -/
theorem claim_C2_witness :
    (∀ r ∈ sampleRows, WFRow r) ∧
      ∃ out, get_servers_on_cluster sampleRows = some out ∧
        ∀ s ∈ out, s.clients.length =
          (sampleRows.filter (fun r => decide (rowIdD r = s.id))).length :=
  ⟨by decide, claim_C2 sampleRows (by decide)⟩

/-- C3: output servers appear in first-seen order of their id — server
`A` precedes server `B` in the output iff the first input row carrying
`A`'s id precedes the first input row carrying `B`'s id. -/
theorem claim_C3 (rows : List SRow) (h : ∀ r ∈ rows, WFRow r) :
    ∃ out, get_servers_on_cluster rows = some out ∧
      ∀ i j : Fin out.length, (i < j ↔
        firstIdx (rows.map rowIdD) (out.get i).id <
          firstIdx (rows.map rowIdD) (out.get j).id) := by
  refine ⟨outSpec rows, get_servers_eq_outSpec rows h, ?_⟩
  have hpw : (outSpec rows).Pairwise (fun a b =>
      firstIdx (rows.map rowIdD) a.id <
        firstIdx (rows.map rowIdD) b.id) := by
    have h1 := firstSeen_pairwise_firstIdx (rows.map rowIdD)
    rw [← outSpec_ids] at h1
    exact List.Pairwise.of_map Server.id (fun a b hab => hab) h1
  intro i j
  constructor
  · intro hij
    exact List.pairwise_iff_get.mp hpw i j hij
  · intro hlt
    rcases lt_trichotomy i j with hc | hc | hc
    · exact hc
    · exact absurd hlt (by rw [hc]; exact lt_irrefl _)
    · exact absurd (List.pairwise_iff_get.mp hpw j i hc) (lt_asymm hlt)

/-- Witness for C3 at `sampleRows`. -/
theorem claim_C3_witness :
    (∀ r ∈ sampleRows, WFRow r) ∧
      ∃ out, get_servers_on_cluster sampleRows = some out ∧
        ∀ i j : Fin out.length, (i < j ↔
          firstIdx (sampleRows.map rowIdD) (out.get i).id <
            firstIdx (sampleRows.map rowIdD) (out.get j).id) :=
  ⟨by decide, claim_C3 sampleRows (by decide)⟩

/-- C9: the grouping of `get_servers_on_cluster` maps the empty row
sequence to the empty server list, and raises no error (returns `some`)
on any well-formed input. -/
theorem claim_C9 :
    get_servers_on_cluster ([] : List SRow) = some [] ∧
      ∀ rows : List SRow, (∀ r ∈ rows, WFRow r) →
        (get_servers_on_cluster rows).isSome := by
  refine ⟨rfl, ?_⟩
  intro rows h
  rw [get_servers_eq_outSpec rows h]
  rfl

/-- Witness for C9 at `sampleRows`. -/
theorem claim_C9_witness :
    (∀ r ∈ sampleRows, WFRow r) ∧
      (get_servers_on_cluster sampleRows).isSome :=
  ⟨by decide, claim_C9.2 sampleRows (by decide)⟩

/-! ### Claims about `process_user_data` -/

/-- Sample user rows: one row with a truthy client id and one left-join
row with a null client id. -/
def uSample : List URow :=
  [{ id := Value.str "u1", name := Value.str "Alice",
     email := Value.str "a@x", emailVerified := Value.null,
     image := Value.null, client_id := Value.str "c1",
     user_id := Value.str "u1", created_at := Value.str "t1",
     updated_at := Value.str "t2" },
   { id := Value.str "u1", name := Value.str "Alice",
     email := Value.str "a@x", emailVerified := Value.null,
     image := Value.null, client_id := Value.null,
     user_id := Value.null, created_at := Value.null,
     updated_at := Value.null }]

/-- A row whose `client_id` is the empty string: non-null, yet falsy for
the `if row["client_id"]:` test in the source. -/
def cRow4 : URow :=
  { id := Value.str "u1", name := Value.str "Alice",
    email := Value.str "a@x", emailVerified := Value.null,
    image := Value.null, client_id := Value.str "",
    user_id := Value.str "u1", created_at := Value.str "t1",
    updated_at := Value.str "t2" }

/-- C4 counterexample: a row whose `client_id` is the empty string is
non-null, yet `process_user_data` appends no child for it, because the
source tests Python truthiness (`if row["client_id"]:`), not non-nullness.
This refutes "a row contributes a child iff its `client_id` is non-null". -/
theorem claim_C4_counterexample :
    cRow4.client_id ≠ Value.null ∧
      process_user_data [cRow4] =
        some { id := Value.str "u1", name := Value.str "Alice",
               email := Value.str "a@x", emailVerified := Value.null,
               image := Value.null, clients := [] } := by decide

/-- C4 amended: a row contributes a child client record iff its
`client_id` is truthy (non-null, and not the empty string or zero); in
particular, for non-empty input where every row's `client_id` is null,
the returned user's client list is empty. -/
theorem claim_C4_amended (l : List URow) (h : l ≠ []) :
    ∃ u, process_user_data l = some u ∧
      u.clients = (l.filter (fun r => r.client_id.truthy)).map mkUClient ∧
      ((∀ r ∈ l, r.client_id = Value.null) → u.clients = []) := by
  cases l with
  | nil => exact absurd rfl h
  | cons f rest =>
    refine ⟨_, rfl, ?_, ?_⟩
    · exact clientsLoop_eq (f :: rest)
    · intro hnull
      show clientsLoop (f :: rest) = []
      rw [clientsLoop_eq]
      have hfil : (f :: rest).filter (fun r => r.client_id.truthy) = [] := by
        rw [List.filter_eq_nil_iff]
        intro a ha
        rw [hnull a ha]
        simp [Value.truthy]
      rw [hfil]
      rfl

/-- Witness for the amended C4 at `uSample`. -/
theorem claim_C4_witness :
    uSample ≠ [] ∧
      ∃ u, process_user_data uSample = some u ∧
        u.clients =
          (uSample.filter (fun r => r.client_id.truthy)).map mkUClient ∧
        ((∀ r ∈ uSample, r.client_id = Value.null) → u.clients = []) :=
  ⟨by decide, claim_C4_amended uSample (by decide)⟩

/-- C5: for the empty input sequence, `process_user_data` returns `none`
(Python `None`), not an error and not an empty user record. -/
theorem claim_C5 : process_user_data [] = none := rfl

/-- C6: the returned user's identity fields `id`, `name`, `email`,
`emailVerified`, `image` are taken from the first row only, so changing
any later row leaves them unchanged. -/
theorem claim_C6 (r : URow) (rows : List URow) :
    ∃ u, process_user_data (r :: rows) = some u ∧
      u.id = r.id ∧ u.name = r.name ∧ u.email = r.email ∧
      u.emailVerified = r.emailVerified ∧ u.image = r.image :=
  ⟨_, rfl, rfl, rfl, rfl, rfl, rfl⟩

/-- Witness for C6: identity fields of the result at a concrete
two-row input equal the first row's fields. -/
theorem claim_C6_witness :
    ∃ u, process_user_data (cRow4 :: uSample) = some u ∧
      u.id = cRow4.id ∧ u.name = cRow4.name ∧ u.email = cRow4.email ∧
      u.emailVerified = cRow4.emailVerified ∧ u.image = cRow4.image :=
  claim_C6 cRow4 uSample

/-- A row whose `id` column ("u1") differs from its `client_id` column
("c9"). -/
def cRow7 : URow :=
  { id := Value.str "u1", name := Value.str "Alice",
    email := Value.str "a@x", emailVerified := Value.null,
    image := Value.null, client_id := Value.str "c9",
    user_id := Value.str "u1", created_at := Value.str "t1",
    updated_at := Value.str "t2" }

/-- C7 counterexample: the appended child's `id` field is the row's
`client_id` column value ("c9"), not the row's `id` column value ("u1"):
the source writes `"id": row["client_id"]`.  This refutes "the child's
`id` field equals the row's `id` column value". -/
theorem claim_C7_counterexample :
    process_user_data [cRow7] =
      some { id := Value.str "u1", name := Value.str "Alice",
             email := Value.str "a@x", emailVerified := Value.null,
             image := Value.null,
             clients := [{ id := Value.str "c9", name := Value.str "Alice",
                           user_id := Value.str "u1",
                           created_at := Value.str "t1",
                           updated_at := Value.str "t2" }] } ∧
      Value.str "c9" ≠ cRow7.id := by decide

/-- C7 amended: the returned user's client list is exactly the row-order
map of `mkUClient` over the rows with truthy `client_id` — so each such
row's own appended child is `mkUClient` of that row — and for every row
the appended record `mkUClient r` takes its `id` field from the row's
`client_id` column and its `name`, `user_id`, `created_at`, `updated_at`
fields from the row's columns of those names respectively. -/
theorem claim_C7_amended (l : List URow) (u : User)
    (hu : process_user_data l = some u) :
    u.clients = (l.filter (fun r => r.client_id.truthy)).map mkUClient ∧
      ∀ r : URow, (mkUClient r).id = r.client_id ∧
        (mkUClient r).name = r.name ∧
        (mkUClient r).user_id = r.user_id ∧
        (mkUClient r).created_at = r.created_at ∧
        (mkUClient r).updated_at = r.updated_at := by
  refine ⟨process_user_data_clients l u hu, ?_⟩
  intro r
  exact ⟨rfl, rfl, rfl, rfl, rfl⟩

/-- The user produced by `process_user_data` on `[cRow7]`. -/
def uExpected7 : User :=
  { id := Value.str "u1", name := Value.str "Alice",
    email := Value.str "a@x", emailVerified := Value.null,
    image := Value.null,
    clients := [{ id := Value.str "c9", name := Value.str "Alice",
                  user_id := Value.str "u1", created_at := Value.str "t1",
                  updated_at := Value.str "t2" }] }

/-- Witness for the amended C7 at `[cRow7]`. -/
theorem claim_C7_witness :
    process_user_data [cRow7] = some uExpected7 ∧
      (uExpected7.clients =
          ([cRow7].filter (fun r => r.client_id.truthy)).map mkUClient ∧
        ∀ r : URow, (mkUClient r).id = r.client_id ∧
          (mkUClient r).name = r.name ∧
          (mkUClient r).user_id = r.user_id ∧
          (mkUClient r).created_at = r.created_at ∧
          (mkUClient r).updated_at = r.updated_at) :=
  ⟨by decide, claim_C7_amended [cRow7] uExpected7 (by decide)⟩

/-- C8: in both operations, child client records appear in each parent's
client list in the same relative order as the rows that produced them:
each server's client list is exactly the row-order map of its rows'
client projections, and the user's client list is exactly the row-order
map of the rows with truthy `client_id`. -/
theorem claim_C8 (rows : List SRow) (h : ∀ r ∈ rows, WFRow r)
    (urows : List URow) :
    (∃ out, get_servers_on_cluster rows = some out ∧
        ∀ s ∈ out, s.clients =
          (rows.filter (fun r => decide (rowIdD r = s.id))).map clientProj) ∧
      ∀ u, process_user_data urows = some u →
        u.clients = (urows.filter (fun r => r.client_id.truthy)).map
          mkUClient := by
  constructor
  · refine ⟨outSpec rows, get_servers_eq_outSpec rows h, ?_⟩
    intro s hs
    unfold outSpec at hs
    rcases List.mem_map.mp hs with ⟨sid, hsid, rfl⟩
    show clientsFor rows sid = _
    unfold clientsFor
    rw [firstRowFields_id]
  · intro u hu
    exact process_user_data_clients urows u hu

/-- Witness for C8 at `sampleRows` and `uSample`. -/
theorem claim_C8_witness :
    (∀ r ∈ sampleRows, WFRow r) ∧
      ((∃ out, get_servers_on_cluster sampleRows = some out ∧
          ∀ s ∈ out, s.clients =
            (sampleRows.filter
              (fun r => decide (rowIdD r = s.id))).map clientProj) ∧
        ∀ u, process_user_data uSample = some u →
          u.clients = (uSample.filter (fun r => r.client_id.truthy)).map
            mkUClient) :=
  ⟨by decide, claim_C8 sampleRows (by decide) uSample⟩

/-- C10: `process_user_data` returns `none` iff its input sequence is
empty; every non-empty row sequence yields `some` user. -/
theorem claim_C10 (l : List URow) :
    process_user_data l = none ↔ l = [] := by
  cases l with
  | nil => simp [process_user_data]
  | cons f rest => simp [process_user_data]

/-- Witness for C10 at the non-empty input `uSample`. -/
theorem claim_C10_witness :
    process_user_data uSample = none ↔ uSample = [] :=
  claim_C10 uSample

end MediaTimeline
